import Mathlib

/-!
Verification of the Roman Zecret encrypted note vault (src/index.py)
against its natural-language specification.

Python strings are embedded as `List Char` (`PyStr`); the external
`cryptography.fernet` AEAD and `hashlib.sha256` primitives are modelled as
ideal (deterministic, collision-free) operations, since they are library
collaborators outside the repository; every function of the repository
itself is translated line by line from src/index.py.
-/

/-- A Python `str` embedded as a list of characters. -/
abbrev PyStr := List Char

/-- A Fernet key as produced by `get_key_from_password` (index.py:61-71):
PBKDF2-HMAC-SHA256 over the password and salt.  The external KDF is
modelled ideally: the key is determined by, and determines, the
`(password, salt)` pair (PBKDF2 is deterministic; collisions are assumed
impossible for the ideal primitive). -/
structure FernetKey where
  password : String
  salt : Nat
deriving DecidableEq, Repr

/-- `get_key_from_password(password, salt)` (index.py:61-71). -/
def get_key_from_password (password : String) (salt : Nat) : FernetKey :=
  ⟨password, salt⟩

/-- A Fernet token produced by `encrypt_data` (index.py:73-80).  The external
Fernet AEAD is modelled ideally: the token records the key it was sealed
under, the fresh random nonce of that call, and the payload; opening under
any other key fails. -/
structure Ciphertext where
  key : FernetKey
  nonce : Nat
  payload : PyStr
deriving DecidableEq, Repr

/-- `encrypt_data(data, key)` (index.py:73-80): Fernet encryption of the
UTF-8 encoded payload.  The per-call random nonce is passed explicitly. -/
def encrypt_data (data : PyStr) (key : FernetKey) (nonce : Nat) : Ciphertext :=
  ⟨key, nonce, data⟩

/-- `decrypt_data(encrypted_data, key)` (index.py:82-91): Fernet decryption,
`none` on `InvalidToken` (wrong key or corrupted data). -/
def decrypt_data (encrypted_data : Ciphertext) (key : FernetKey) : Option PyStr :=
  if encrypted_data.key = key then some encrypted_data.payload else none

/-- A hex digest as produced by `hashlib.sha256(key).hexdigest()`
(index.py:99-101, 126-128).  The external hash is modelled ideally
(collision-free), so the digest is determined by the hashed key. -/
structure KeyHash where
  digest : FernetKey
deriving DecidableEq, Repr

/-- `hashlib.sha256(key).hexdigest()` as used on derived keys. -/
def sha256_hexdigest (key : FernetKey) : KeyHash :=
  ⟨key⟩

/-- The credential persisted by `save_password_hash` (index.py:93-110):
the salt together with a hash of the derived key. -/
structure Credential where
  salt : Nat
  key_hash : KeyHash
deriving DecidableEq, Repr

/-- `save_password_hash(password)` (index.py:93-110): derives the key from a
fresh random salt (passed explicitly), persists `salt : hash(key)`, and
returns the salt and derived key.  The `IOError` branch is the
storage-failure path, out of scope here (the happy path writes the file). -/
def save_password_hash (password : String) (salt : Nat) : Credential × FernetKey :=
  let key := get_key_from_password password salt
  (⟨salt, sha256_hexdigest key⟩, key)

/-- `verify_password(password, salt, stored_key_hash)` (index.py:123-129):
re-derives the key and compares the hash of it with the stored one,
returning the boolean alongside the derived key. -/
def verify_password (password : String) (salt : Nat) (stored_key_hash : KeyHash) :
    Bool × FernetKey :=
  let key := get_key_from_password password salt
  (decide (sha256_hexdigest key = stored_key_hash), key)

/-! ## Entry framing and parsing -/

/-- The content separator `"\n--CONTENT--\n"` (index.py:474, 615). -/
def CONTENT_SEP : PyStr := "\n--CONTENT--\n".data

/-- The title marker `"TITLE:"` (index.py:474, 616-617). -/
def TITLE_MARKER : PyStr := "TITLE:".data

/-- Python `str.isspace` characters relevant to `str.strip()`. -/
def pyIsSpace (c : Char) : Bool :=
  c == ' ' || c == '\t' || c == '\n' || c == '\x0d' || c == '\x0b' || c == '\x0c'

/-- Python `str.strip()`: drop leading and trailing whitespace. -/
def pyStrip (s : PyStr) : PyStr :=
  ((s.dropWhile pyIsSpace).reverse.dropWhile pyIsSpace).reverse

/-- Python `s.split(sep, 1)` for a non-empty separator, as an option:
`some (before, after)` splits at the leftmost occurrence of `sep`,
`none` means `sep` does not occur (Python returns the one-element list). -/
def splitOnce (sep : PyStr) : PyStr → Option (PyStr × PyStr)
  | [] => if sep.isPrefixOf [] then some ([], []) else none
  | c :: rest =>
    if sep.isPrefixOf (c :: rest) then some ([], (c :: rest).drop sep.length)
    else (splitOnce sep rest).map fun p => (c :: p.1, p.2)

/-- The payload written by `write_new_entry` (index.py:474) and `edit_entry`
(index.py:934): `f"TITLE:{title}\n--CONTENT--\n{content}"`. -/
def full_entry_data (title content : PyStr) : PyStr :=
  TITLE_MARKER ++ title ++ CONTENT_SEP ++ content

/-- The parsing of a decrypted payload in `select_and_read_entry`
(index.py:612-618): split once on the content separator; on a well-formed
frame take the stripped title and the content, otherwise fall back to the
synthesized title `f"Zecret: {selected_note}"` with the whole payload as
content. -/
def parse_entry_payload (selected_note decrypted_full_entry : PyStr) :
    PyStr × PyStr :=
  match splitOnce CONTENT_SEP decrypted_full_entry with
  | some parts =>
    if TITLE_MARKER.isPrefixOf parts.1 then
      (pyStrip (parts.1.drop TITLE_MARKER.length), parts.2)
    else ("Zecret: ".data ++ selected_note, decrypted_full_entry)
  | none => ("Zecret: ".data ++ selected_note, decrypted_full_entry)

/-! ## Line splitting (Python `str.splitlines` for `'\n'`-separated text) -/

/-- Worker for `splitlines`: `acc` holds the characters of the current line
in reverse.  At the end of the string a pending non-empty line is emitted;
a trailing newline does not produce a final empty line (Python
`str.splitlines` semantics). -/
def splitlinesGo : PyStr → PyStr → List PyStr
  | [], acc => if acc = [] then [] else [acc.reverse]
  | c :: rest, acc =>
    if c = '\n' then acc.reverse :: splitlinesGo rest []
    else splitlinesGo rest (c :: acc)

/-- Python `str.splitlines()` on strings whose only line break is `'\n'`
(the only break the program ever writes). -/
def splitlines (s : PyStr) : List PyStr :=
  splitlinesGo s []

/-- Variant of `splitlinesGo` that always emits the pending line, used to
describe what `splitlines` does on a proper prefix of its input. -/
def splitlinesEmit : PyStr → PyStr → List PyStr
  | [], acc => [acc.reverse]
  | c :: rest, acc =>
    if c = '\n' then acc.reverse :: splitlinesEmit rest []
    else splitlinesEmit rest (c :: acc)

/-! ## The multi-line text editor -/

/-- The editor state of `get_multiline_input` (index.py:253-401) and
`get_multiline_input_with_content` (index.py:966-1116): the list `lines`,
the current line index `current_line_idx` and the in-line cursor position
`cursor_x`.  (`top_line_idx` is viewport bookkeeping, out of scope.) -/
structure TextBuffer where
  lines : List PyStr
  cursorLine : Nat
  cursorCol : Nat
deriving DecidableEq, Repr

/-- The input events processed by the editor loop (index.py:333-386). -/
inductive EditorKey where
  | char (c : Char)
  | enter
  | backspace
  | deleteForward
  | up
  | down
  | left
  | right
deriving DecidableEq, Repr

/-- One iteration of the editor input loop, shared verbatim between
`get_multiline_input` (index.py:333-386) and
`get_multiline_input_with_content` (index.py:1048-1101).
`current_line = lines[current_line_idx]` is embedded with `getD`, which
agrees with the Python indexing whenever the buffer invariant holds. -/
def process_key (st : TextBuffer) (k : EditorKey) : TextBuffer :=
  let current_line := st.lines.getD st.cursorLine []
  match k with
  | .enter =>
    { lines := (st.lines.set st.cursorLine (current_line.take st.cursorCol)).insertIdx
        (st.cursorLine + 1) (current_line.drop st.cursorCol)
      cursorLine := st.cursorLine + 1
      cursorCol := 0 }
  | .backspace =>
    if 0 < st.cursorCol then
      { st with
        lines := st.lines.set st.cursorLine
          (current_line.take (st.cursorCol - 1) ++ current_line.drop st.cursorCol)
        cursorCol := st.cursorCol - 1 }
    else if 0 < st.cursorLine then
      let prev_line := st.lines.getD (st.cursorLine - 1) []
      { lines := (st.lines.set (st.cursorLine - 1) (prev_line ++ current_line)).eraseIdx
          st.cursorLine
        cursorLine := st.cursorLine - 1
        cursorCol := prev_line.length }
    else st
  | .deleteForward =>
    if st.cursorCol < current_line.length then
      { st with
        lines := st.lines.set st.cursorLine
          (current_line.take st.cursorCol ++ current_line.drop (st.cursorCol + 1)) }
    else st
  | .up =>
    if 0 < st.cursorLine then
      { st with
        cursorLine := st.cursorLine - 1
        cursorCol := min st.cursorCol (st.lines.getD (st.cursorLine - 1) []).length }
    else st
  | .down =>
    if st.cursorLine < st.lines.length - 1 then
      { st with
        cursorLine := st.cursorLine + 1
        cursorCol := min st.cursorCol (st.lines.getD (st.cursorLine + 1) []).length }
    else st
  | .left =>
    if 0 < st.cursorCol then
      { st with cursorCol := st.cursorCol - 1 }
    else if 0 < st.cursorLine then
      { st with
        cursorLine := st.cursorLine - 1
        cursorCol := (st.lines.getD (st.cursorLine - 1) []).length }
    else st
  | .right =>
    if st.cursorCol < current_line.length then
      { st with cursorCol := st.cursorCol + 1 }
    else if st.cursorLine < st.lines.length - 1 then
      { st with cursorLine := st.cursorLine + 1, cursorCol := 0 }
    else st
  | .char c =>
    { st with
      lines := st.lines.set st.cursorLine
        (current_line.take st.cursorCol ++ c :: current_line.drop st.cursorCol)
      cursorCol := st.cursorCol + 1 }

/-- The buffer invariant of the specification:
`0 <= cursorLine < len(lines)`, `0 <= cursorColumn <= len(lines[cursorLine])`,
and `lines` is never empty. -/
def buffer_invariant (st : TextBuffer) : Prop :=
  st.lines ≠ [] ∧ st.cursorLine < st.lines.length
    ∧ st.cursorCol ≤ (st.lines.getD st.cursorLine []).length

instance (st : TextBuffer) : Decidable (buffer_invariant st) := by
  unfold buffer_invariant; infer_instance

/-- The literal appended to the old content in append mode
(index.py:909): `old_content + "\n\n--- APPENDED CONTENT ---\n\n"`. -/
def APPEND_SEPARATOR : PyStr := "\n\n--- APPENDED CONTENT ---\n\n".data

/-- The append-mode seed of `edit_entry` (index.py:904-918): the old
content plus the separator, split into lines, with `[""]` substituted for
an empty seed. -/
def append_mode_initial_lines (old_content : PyStr) : List PyStr :=
  let initial_lines := splitlines (old_content ++ APPEND_SEPARATOR)
  if initial_lines = [] then [[]] else initial_lines

/-- The initial editor state of `get_multiline_input_with_content`
(index.py:966-971): the seeded lines (or a single empty line), with
`current_line_idx = 0` and `cursor_x = 0`. -/
def get_multiline_input_with_content_start (initial_lines : List PyStr) : TextBuffer :=
  ⟨if initial_lines = [] then [[]] else initial_lines, 0, 0⟩

/-- The editor state at the start of an append-mode edit session
(index.py:904-921 composed with index.py:966-971). -/
def append_mode_start (old_content : PyStr) : TextBuffer :=
  get_multiline_input_with_content_start (append_mode_initial_lines old_content)

/-! ## Entry filenames -/

/-- `random.randint(100, 999)` (index.py:496), with the randomness supplied
as an arbitrary natural `r`: every draw lies in `100..999`, and every such
value is reachable. -/
def randint_100_999 (r : Nat) : Nat :=
  100 + r % 900

/-- The filename generated by `write_new_entry` (index.py:494-497):
`now.strftime(f"%Y%m%d_%H%M%S_{random.randint(100,999)}{ENTRY_EXTENSION}")`,
with the formatted timestamp `now` passed as a string. -/
def write_new_entry_filename (now : String) (r : Nat) : String :=
  now ++ "_" ++ toString (randint_100_999 r) ++ ".rz"

/-! ## Password rotation (`change_password`, index.py:1209-1377) -/

/-- An entry file of the vault: its filename and its ciphertext bytes. -/
structure NoteFile where
  name : String
  contents : Ciphertext
deriving DecidableEq, Repr

/-- A default `NoteFile` used with `getD` in theorem statements. -/
def default_note : NoteFile :=
  ⟨"", ⟨⟨"", 0⟩, 0, []⟩⟩

/-- The re-encryption loop of `change_password` (index.py:1314-1362): each
note is decrypted with the old key; on failure the failure counter is
incremented and the file is left alone; on success it is re-encrypted with
the new key (with a fresh nonce per call, supplied by `nonces`) and
overwritten in place, incrementing the success counter.  Returns the new
vault contents with the success and failure counts. -/
def reencrypt_notes (old_key new_key : FernetKey) (nonces : Nat → Nat) :
    List NoteFile → List NoteFile × Nat × Nat
  | [] => ([], 0, 0)
  | note :: rest =>
    let tail := reencrypt_notes old_key new_key (fun n => nonces (n + 1)) rest
    match decrypt_data note.contents old_key with
    | none => (note :: tail.1, tail.2.1, tail.2.2 + 1)
    | some decrypted_content =>
      (⟨note.name, encrypt_data decrypted_content new_key (nonces 0)⟩ :: tail.1,
        tail.2.1 + 1, tail.2.2)

/-- The outcome of `change_password` from the point where the new
credential has been written (index.py:1314-1377): the rewritten vault, the
two counters, the reported completion flag and the session key handed back
to the caller.  Both final branches return `(True, new_key)`. -/
structure RotationReport where
  notes : List NoteFile
  success_count : Nat
  fail_count : Nat
  password_changed : Bool
  session_key : FernetKey
deriving DecidableEq, Repr

/-- `change_password` steps 4-5 (index.py:1314-1377) on a vault with no
storage errors: run the re-encryption loop and report. -/
def change_password_reencrypt (old_key new_key : FernetKey) (nonces : Nat → Nat)
    (notes : List NoteFile) : RotationReport :=
  let r := reencrypt_notes old_key new_key nonces notes
  ⟨r.1, r.2.1, r.2.2, true, new_key⟩

/-! ## Helper lemmas -/

lemma isPrefixOf_append_self (l r : PyStr) : l.isPrefixOf (l ++ r) = true := by
  induction l with
  | nil => simp [List.isPrefixOf]
  | cons c cs ih => simp [List.isPrefixOf, ih]

lemma drop_length_append (l r : PyStr) : (l ++ r).drop l.length = r := by
  induction l with
  | nil => rfl
  | cons c cs ih => simp [ih]

/-- Splitting at a separator that starts with a newline, when the part
before the separator contains no newline, finds exactly that separator. -/
lemma splitOnce_of_no_newline (t pre body : PyStr) (h : '\n' ∉ pre) :
    splitOnce ('\n' :: t) (pre ++ ('\n' :: t) ++ body) = some (pre, body) := by
  induction pre with
  | nil =>
    simp [splitOnce, List.isPrefixOf, isPrefixOf_append_self, drop_length_append]
  | cons c cs ih =>
    have hc : c ≠ '\n' := fun hc => h (by simp [hc])
    have hcs : '\n' ∉ cs := fun hm => h (by simp [hm])
    have hb : ('\n' == c) = false := by simp [Ne.symm hc]
    simp only [List.cons_append, splitOnce, List.isPrefixOf, hb, Bool.false_and,
      Bool.false_eq_true, if_false]
    simpa using ih hcs

/-- A well-formed frame whose title contains no newline parses back to the
stripped title and the exact body. -/
lemma parse_full_entry_data (note title body : PyStr) (h : '\n' ∉ title) :
    parse_entry_payload note (full_entry_data title body)
      = (pyStrip title, body) := by
  have hpre : '\n' ∉ TITLE_MARKER ++ title := by
    intro hm
    rcases List.mem_append.mp hm with hm | hm
    · revert hm; decide
    · exact h hm
  have hsep : CONTENT_SEP = '\n' :: "--CONTENT--\n".data := by decide
  have hsplit : splitOnce CONTENT_SEP (full_entry_data title body)
      = some (TITLE_MARKER ++ title, body) := by
    have := splitOnce_of_no_newline "--CONTENT--\n".data
      (TITLE_MARKER ++ title) body hpre
    simpa [full_entry_data, hsep] using this
  simp [parse_entry_payload, hsplit, isPrefixOf_append_self, drop_length_append]

/-- C1: For every valid Fernet key `k` and every string payload `p`,
decrypting the result of encrypting `p` under `k` with the same key `k`
returns `p` (seal/open round-trip). -/
theorem encrypt_decrypt_roundtrip (p : PyStr) (k : FernetKey) (nonce : Nat) :
    decrypt_data (encrypt_data p k nonce) k = some p := by
  simp [decrypt_data, encrypt_data]

/-- C4: For every password `p` and credential produced by
`save_password_hash pw salt`, `verify_password` returns `true` exactly when
`p` is the password the credential was created from, and in every case it
returns the key derived from `p` and the stored salt. -/
theorem verify_password_correct (p pw : String) (salt : Nat) :
    ((verify_password p (save_password_hash pw salt).1.salt
        (save_password_hash pw salt).1.key_hash).1 = true ↔ p = pw)
    ∧ (verify_password p (save_password_hash pw salt).1.salt
        (save_password_hash pw salt).1.key_hash).2
      = get_key_from_password p (save_password_hash pw salt).1.salt := by
  constructor
  · simp [verify_password, save_password_hash, sha256_hexdigest,
      get_key_from_password, FernetKey.mk.injEq, KeyHash.mk.injEq]
  · rfl

/-- C7: For every successfully decrypted payload, the reader splits on the
content separator to recover title and body (here: every frame written by
`write_new_entry`/`edit_entry` whose title has no newline parses back to
the stripped title and exact body); if the framing is absent or malformed,
the entire payload becomes the body under the synthesized title
`"Zecret: " + filename`, and the read is total — it never fails for
missing framing. -/
theorem parse_entry_payload_contract (note title body payload pre suf : PyStr) :
    ('\n' ∉ title →
      parse_entry_payload note (full_entry_data title body) = (pyStrip title, body))
    ∧ (splitOnce CONTENT_SEP payload = none →
      parse_entry_payload note payload = ("Zecret: ".data ++ note, payload))
    ∧ (splitOnce CONTENT_SEP payload = some (pre, suf) →
      TITLE_MARKER.isPrefixOf pre = false →
      parse_entry_payload note payload = ("Zecret: ".data ++ note, payload)) := by
  refine ⟨fun h => parse_full_entry_data note title body h, fun h => ?_, fun h hp => ?_⟩
  · simp [parse_entry_payload, h]
  · simp [parse_entry_payload, h, hp]

/-- Witness for C7: a concrete well-formed frame parses to its stripped
title and body, and a concrete payload without the separator falls back to
the synthesized title with the whole payload as content. -/
theorem parse_entry_payload_contract_witness :
    parse_entry_payload "n.rz".data (full_entry_data " My Title".data "body".data)
      = (pyStrip " My Title".data, "body".data)
    ∧ parse_entry_payload "n.rz".data "legacy text".data
      = ("Zecret: ".data ++ "n.rz".data, "legacy text".data) :=
  ⟨(parse_entry_payload_contract "n.rz".data " My Title".data "body".data
      "legacy text".data [] []).1 (by decide),
   (parse_entry_payload_contract "n.rz".data " My Title".data "body".data
      "legacy text".data [] []).2.1 (by decide)⟩

/-- C10 counterexample: the title `"x\n--CONTENT--"` has no leading or
trailing whitespace and does not contain the content-separator string
`"\n--CONTENT--\n"`, yet saving an entry with it and loading it back
yields the title `"x"` — neither `t` nor `t.strip()` — because the
separator match straddles the title/separator boundary. -/
theorem title_roundtrip_counterexample :
    pyStrip "x\n--CONTENT--".data = "x\n--CONTENT--".data
    ∧ splitOnce CONTENT_SEP "x\n--CONTENT--".data = none
    ∧ (parse_entry_payload "n.rz".data
        (full_entry_data "x\n--CONTENT--".data "body".data)).1 = "x".data := by
  decide

/-- C10 (amended): for every title `t` that contains no newline character
(every title the UI can produce, since `get_string_input` only accepts
printable ASCII), saving an entry with title `t` and loading it yields
title `t.strip()`; for such titles the exact round-trip holds precisely
when `t` has no leading or trailing whitespace, i.e. `t.strip() = t`. -/
theorem title_roundtrip_strip (note title body : PyStr) (h : '\n' ∉ title) :
    (parse_entry_payload note (full_entry_data title body)).1 = pyStrip title
    ∧ ((parse_entry_payload note (full_entry_data title body)).1 = title
        ↔ pyStrip title = title) := by
  have hp := parse_full_entry_data note title body h
  simp [hp]

/-- Witness for C10 (amended): the newline-free title `" T "` loads back
as `"T"` (its stripped form), and the round-trip equation is equivalent to
`" T ".strip() = " T "`. -/
theorem title_roundtrip_strip_witness :
    (parse_entry_payload "n.rz".data (full_entry_data " T ".data "b".data)).1
      = pyStrip " T ".data
    ∧ ((parse_entry_payload "n.rz".data (full_entry_data " T ".data "b".data)).1
        = " T ".data ↔ pyStrip " T ".data = " T ".data) :=
  title_roundtrip_strip "n.rz".data " T ".data "b".data (by decide)

lemma getLast?_cons_of_ne_nil (c : Char) (s : PyStr) (h : s ≠ []) :
    (c :: s).getLast? = s.getLast? := by
  cases s with
  | nil => exact absurd rfl h
  | cons d s => exact List.getLast?_cons_cons

/-- Splitting a string that continues with a newline: the part up to the
newline is split with the pending line always emitted, and the rest is
split independently. -/
lemma splitlinesGo_append_newline (xs ys acc : PyStr) :
    splitlinesGo (xs ++ '\n' :: ys) acc
      = splitlinesEmit xs acc ++ splitlinesGo ys [] := by
  induction xs generalizing acc with
  | nil => simp [splitlinesGo, splitlinesEmit]
  | cons c cs ih =>
    by_cases hc : c = '\n'
    · subst hc
      simp [splitlinesGo, splitlinesEmit, ih]
    · simp [splitlinesGo, splitlinesEmit, hc, ih]

/-- On a string that is non-empty (or arrives with a pending line) and does
not end in a newline, the emitting splitter agrees with `splitlines`. -/
lemma splitlinesEmit_eq_splitlinesGo (s acc : PyStr) (h1 : s = [] → acc ≠ [])
    (h2 : s.getLast? ≠ some '\n') :
    splitlinesEmit s acc = splitlinesGo s acc := by
  induction s generalizing acc with
  | nil => simp [splitlinesEmit, splitlinesGo, h1 rfl]
  | cons c cs ih =>
    by_cases hcs : cs = []
    · subst hcs
      have hc : c ≠ '\n' := by
        intro hc
        exact h2 (by simp [hc, List.getLast?])
      simp [splitlinesEmit, splitlinesGo, hc]
    · have h2' : cs.getLast? ≠ some '\n' := by
        rwa [getLast?_cons_of_ne_nil c cs hcs] at h2
      by_cases hc : c = '\n'
      · subst hc
        simp only [splitlinesEmit, splitlinesGo, if_pos]
        rw [ih [] (fun h => absurd h hcs) h2']
      · simp only [splitlinesEmit, splitlinesGo, if_neg hc]
        exact ih (c :: acc) (fun _ => List.cons_ne_nil c acc) h2'

/-- C6 counterexample: starting an append-mode edit session on the old
content `"hello"` seeds the buffer with the old line plus the separator
marker lines, but places the cursor at line 0, column 0 — the beginning of
the buffer, not its end (the last line has index 3). -/
theorem append_mode_cursor_counterexample :
    append_mode_start "hello".data
      = ⟨["hello".data, [], "--- APPENDED CONTENT ---".data, []], 0, 0⟩
    ∧ (append_mode_start "hello".data).cursorLine
      ≠ (append_mode_start "hello".data).lines.length - 1 := by
  decide

/-- C6 (amended): when an edit session starts in append mode on a
non-empty old content with no trailing newline, the editor buffer is
seeded with the old content's lines plus the literal separator marker
appended as new trailing lines (an empty line, the marker line, and an
empty line), and the cursor is placed at the beginning of the buffer:
line 0, column 0. -/
theorem append_mode_seeding (old_content : PyStr) (h1 : old_content ≠ [])
    (h2 : old_content.getLast? ≠ some '\n') :
    (append_mode_start old_content).lines
      = splitlines old_content ++ [[], "--- APPENDED CONTENT ---".data, []]
    ∧ (append_mode_start old_content).cursorLine = 0
    ∧ (append_mode_start old_content).cursorCol = 0 := by
  have hsep : APPEND_SEPARATOR = '\n' :: "\n--- APPENDED CONTENT ---\n\n".data := by
    decide
  have htail : splitlinesGo "\n--- APPENDED CONTENT ---\n\n".data []
      = [[], "--- APPENDED CONTENT ---".data, []] := by decide
  have hsplit : splitlines (old_content ++ APPEND_SEPARATOR)
      = splitlines old_content ++ [[], "--- APPENDED CONTENT ---".data, []] := by
    rw [hsep, splitlines, splitlinesGo_append_newline, htail]
    rw [splitlinesEmit_eq_splitlinesGo old_content [] (fun h => absurd h h1) h2]
    rfl
  have hne : (splitlines old_content ++ [[], "--- APPENDED CONTENT ---".data, []])
      ≠ [] := by simp
  have hlist : append_mode_initial_lines old_content
      = splitlines old_content ++ [[], "--- APPENDED CONTENT ---".data, []] := by
    unfold append_mode_initial_lines
    rw [hsplit, if_neg hne]
  refine ⟨?_, rfl, rfl⟩
  show (if append_mode_initial_lines old_content = [] then [[]]
      else append_mode_initial_lines old_content) = _
  rw [hlist, if_neg hne]

/-- Witness for C6 (amended): the two-line old content `"hi\nthere"` is
seeded as its two lines plus the three separator lines, cursor at the
beginning. -/
theorem append_mode_seeding_witness :
    ("hi\nthere".data ≠ ([] : PyStr))
    ∧ ("hi\nthere".data.getLast? ≠ some '\n')
    ∧ (append_mode_start "hi\nthere".data).lines
      = splitlines "hi\nthere".data ++ [[], "--- APPENDED CONTENT ---".data, []]
    ∧ (append_mode_start "hi\nthere".data).cursorLine = 0
    ∧ (append_mode_start "hi\nthere".data).cursorCol = 0 :=
  ⟨by decide, by decide,
    (append_mode_seeding "hi\nthere".data (by decide) (by decide)).1,
    (append_mode_seeding "hi\nthere".data (by decide) (by decide)).2.1,
    (append_mode_seeding "hi\nthere".data (by decide) (by decide)).2.2⟩

lemma getD_set_self {α : Type} (d : α) :
    ∀ (l : List α) (i : Nat) (x : α), i < l.length → (l.set i x).getD i d = x
  | [], i, x, h => absurd h (by simp)
  | a :: l, 0, x, h => rfl
  | a :: l, i + 1, x, h =>
    getD_set_self d l i x (Nat.lt_of_succ_lt_succ (by simpa using h))

lemma getD_set_ne {α : Type} (d : α) :
    ∀ (l : List α) (i j : Nat) (x : α), i ≠ j → (l.set i x).getD j d = l.getD j d
  | [], _, _, _, _ => by simp
  | a :: l, 0, 0, x, h => absurd rfl h
  | a :: l, 0, j + 1, x, h => rfl
  | a :: l, i + 1, 0, x, h => rfl
  | a :: l, i + 1, j + 1, x, h => by
    simpa using getD_set_ne d l i j x (fun e => h (by rw [e]))

lemma getD_eraseIdx_of_lt {α : Type} (d : α) :
    ∀ (l : List α) (i j : Nat), j < i → (l.eraseIdx i).getD j d = l.getD j d
  | [], _, _, _ => rfl
  | a :: l, 0, j, h => absurd h (Nat.not_lt_zero j)
  | a :: l, i + 1, 0, h => rfl
  | a :: l, i + 1, j + 1, h => by
    simpa [List.eraseIdx] using
      getD_eraseIdx_of_lt d l i j (Nat.lt_of_succ_lt_succ h)

lemma length_eraseIdx_of_lt {α : Type} :
    ∀ (l : List α) (i : Nat), i < l.length → (l.eraseIdx i).length = l.length - 1
  | [], i, h => absurd h (by simp)
  | a :: l, 0, h => by simp [List.eraseIdx]
  | a :: l, i + 1, h => by
    have := length_eraseIdx_of_lt l i (Nat.lt_of_succ_lt_succ (by simpa using h))
    have hpos : 0 < l.length := Nat.lt_of_le_of_lt (Nat.zero_le i)
      (Nat.lt_of_succ_lt_succ (by simpa using h))
    simp only [List.eraseIdx, List.length_cons, this]
    omega


lemma ne_nil_of_length_pos {α : Type} {l : List α} (h : 0 < l.length) :
    l ≠ [] := by
  intro he
  subst he
  simp at h

lemma process_key_enter_eq (st : TextBuffer) :
    process_key st .enter
      = ⟨(st.lines.set st.cursorLine
            ((st.lines.getD st.cursorLine []).take st.cursorCol)).insertIdx
          (st.cursorLine + 1) ((st.lines.getD st.cursorLine []).drop st.cursorCol),
        st.cursorLine + 1, 0⟩ := rfl

lemma process_key_char_eq (st : TextBuffer) (c : Char) :
    process_key st (.char c)
      = ⟨st.lines.set st.cursorLine
          ((st.lines.getD st.cursorLine []).take st.cursorCol
            ++ c :: (st.lines.getD st.cursorLine []).drop st.cursorCol),
        st.cursorLine, st.cursorCol + 1⟩ := rfl

lemma process_key_backspace_eq_of_pos (st : TextBuffer) (hc : 0 < st.cursorCol) :
    process_key st .backspace
      = ⟨st.lines.set st.cursorLine
          ((st.lines.getD st.cursorLine []).take (st.cursorCol - 1)
            ++ (st.lines.getD st.cursorLine []).drop st.cursorCol),
        st.cursorLine, st.cursorCol - 1⟩ := by
  simp [process_key, hc]

lemma process_key_backspace_eq_merge (st : TextBuffer) (hc : ¬ 0 < st.cursorCol)
    (hl : 0 < st.cursorLine) :
    process_key st .backspace
      = ⟨(st.lines.set (st.cursorLine - 1)
            (st.lines.getD (st.cursorLine - 1) []
              ++ st.lines.getD st.cursorLine [])).eraseIdx st.cursorLine,
        st.cursorLine - 1, (st.lines.getD (st.cursorLine - 1) []).length⟩ := by
  simp [process_key, hc, hl]

lemma process_key_backspace_eq_id (st : TextBuffer) (hc : ¬ 0 < st.cursorCol)
    (hl : ¬ 0 < st.cursorLine) :
    process_key st .backspace = st := by
  simp [process_key, hc, hl]

lemma process_key_delete_eq_of_lt (st : TextBuffer)
    (hd : st.cursorCol < (st.lines.getD st.cursorLine []).length) :
    process_key st .deleteForward
      = ⟨st.lines.set st.cursorLine
          ((st.lines.getD st.cursorLine []).take st.cursorCol
            ++ (st.lines.getD st.cursorLine []).drop (st.cursorCol + 1)),
        st.cursorLine, st.cursorCol⟩ := by
  simp only [process_key]
  rw [if_pos hd]

lemma process_key_delete_eq_id (st : TextBuffer)
    (hd : ¬ st.cursorCol < (st.lines.getD st.cursorLine []).length) :
    process_key st .deleteForward = st := by
  simp only [process_key]
  rw [if_neg hd]

lemma process_key_up_eq_of_pos (st : TextBuffer) (hl : 0 < st.cursorLine) :
    process_key st .up
      = ⟨st.lines, st.cursorLine - 1,
        min st.cursorCol (st.lines.getD (st.cursorLine - 1) []).length⟩ := by
  simp [process_key, hl]

lemma process_key_up_eq_id (st : TextBuffer) (hl : ¬ 0 < st.cursorLine) :
    process_key st .up = st := by
  simp [process_key, hl]

lemma process_key_down_eq_of_lt (st : TextBuffer)
    (hl : st.cursorLine < st.lines.length - 1) :
    process_key st .down
      = ⟨st.lines, st.cursorLine + 1,
        min st.cursorCol (st.lines.getD (st.cursorLine + 1) []).length⟩ := by
  simp [process_key, hl]

lemma process_key_down_eq_id (st : TextBuffer)
    (hl : ¬ st.cursorLine < st.lines.length - 1) :
    process_key st .down = st := by
  simp [process_key, hl]

lemma process_key_left_eq_of_pos (st : TextBuffer) (hc : 0 < st.cursorCol) :
    process_key st .left = ⟨st.lines, st.cursorLine, st.cursorCol - 1⟩ := by
  simp [process_key, hc]

lemma process_key_left_eq_wrap (st : TextBuffer) (hc : ¬ 0 < st.cursorCol)
    (hl : 0 < st.cursorLine) :
    process_key st .left
      = ⟨st.lines, st.cursorLine - 1,
        (st.lines.getD (st.cursorLine - 1) []).length⟩ := by
  simp [process_key, hc, hl]

lemma process_key_left_eq_id (st : TextBuffer) (hc : ¬ 0 < st.cursorCol)
    (hl : ¬ 0 < st.cursorLine) :
    process_key st .left = st := by
  simp [process_key, hc, hl]

lemma process_key_right_eq_of_lt (st : TextBuffer)
    (hc : st.cursorCol < (st.lines.getD st.cursorLine []).length) :
    process_key st .right = ⟨st.lines, st.cursorLine, st.cursorCol + 1⟩ := by
  simp only [process_key]
  rw [if_pos hc]

lemma process_key_right_eq_wrap (st : TextBuffer)
    (hc : ¬ st.cursorCol < (st.lines.getD st.cursorLine []).length)
    (hl : st.cursorLine < st.lines.length - 1) :
    process_key st .right = ⟨st.lines, st.cursorLine + 1, 0⟩ := by
  simp only [process_key]
  rw [if_neg hc, if_pos hl]

lemma process_key_right_eq_id (st : TextBuffer)
    (hc : ¬ st.cursorCol < (st.lines.getD st.cursorLine []).length)
    (hl : ¬ st.cursorLine < st.lines.length - 1) :
    process_key st .right = st := by
  simp only [process_key]
  rw [if_neg hc, if_neg hl]

/-- C8: every editor transition (insert character, newline, backspace,
delete-forward, and the four cursor moves), applied to any state satisfying
the buffer invariant, yields a state that still satisfies it:
`0 <= cursorLine < len(lines)`, `0 <= cursorColumn <= len(lines[cursorLine])`,
and `lines` is never empty. -/
theorem process_key_preserves_invariant (st : TextBuffer) (k : EditorKey)
    (h : buffer_invariant st) : buffer_invariant (process_key st k) := by
  obtain ⟨hne, hline, hcol⟩ := h
  cases k with
  | enter =>
    rw [process_key_enter_eq]
    have hsetlen : (st.lines.set st.cursorLine
        ((st.lines.getD st.cursorLine []).take st.cursorCol)).length
        = st.lines.length := List.length_set ..
    have hlen : ((st.lines.set st.cursorLine
        ((st.lines.getD st.cursorLine []).take st.cursorCol)).insertIdx
          (st.cursorLine + 1)
          ((st.lines.getD st.cursorLine []).drop st.cursorCol)).length
        = st.lines.length + 1 := by
      rw [List.length_insertIdx _ _ (by rw [hsetlen]; omega), hsetlen]
    refine ⟨ne_nil_of_length_pos (by rw [hlen]; omega), ?_, Nat.zero_le _⟩
    dsimp only
    rw [hlen]
    omega
  | backspace =>
    by_cases hc : 0 < st.cursorCol
    · rw [process_key_backspace_eq_of_pos st hc]
      refine ⟨?_, ?_, ?_⟩ <;> dsimp only
      · exact ne_nil_of_length_pos (by rw [List.length_set]; omega)
      · rw [List.length_set]; exact hline
      · rw [getD_set_self [] _ _ _ hline, List.length_append, List.length_take,
          List.length_drop]
        omega
    · by_cases hl : 0 < st.cursorLine
      · rw [process_key_backspace_eq_merge st hc hl]
        have herase : ((st.lines.set (st.cursorLine - 1)
            (st.lines.getD (st.cursorLine - 1) []
              ++ st.lines.getD st.cursorLine [])).eraseIdx st.cursorLine).length
            = st.lines.length - 1 := by
          rw [length_eraseIdx_of_lt _ _ (by rw [List.length_set]; exact hline),
            List.length_set]
        refine ⟨ne_nil_of_length_pos (by rw [herase]; omega), ?_, ?_⟩ <;> dsimp only
        · rw [herase]; omega
        · rw [getD_eraseIdx_of_lt [] _ _ _ (by omega),
            getD_set_self [] _ _ _ (by omega), List.length_append]
          exact Nat.le_add_right _ _
      · rw [process_key_backspace_eq_id st hc hl]
        exact ⟨hne, hline, hcol⟩
  | deleteForward =>
    by_cases hd : st.cursorCol < (st.lines.getD st.cursorLine []).length
    · rw [process_key_delete_eq_of_lt st hd]
      refine ⟨?_, ?_, ?_⟩ <;> dsimp only
      · exact ne_nil_of_length_pos (by rw [List.length_set]; omega)
      · rw [List.length_set]; exact hline
      · rw [getD_set_self [] _ _ _ hline, List.length_append, List.length_take,
          List.length_drop]
        omega
    · rw [process_key_delete_eq_id st hd]
      exact ⟨hne, hline, hcol⟩
  | up =>
    by_cases hl : 0 < st.cursorLine
    · rw [process_key_up_eq_of_pos st hl]
      exact ⟨hne, by dsimp only; omega, Nat.min_le_right _ _⟩
    · rw [process_key_up_eq_id st hl]
      exact ⟨hne, hline, hcol⟩
  | down =>
    by_cases hl : st.cursorLine < st.lines.length - 1
    · rw [process_key_down_eq_of_lt st hl]
      exact ⟨hne, by dsimp only; omega, Nat.min_le_right _ _⟩
    · rw [process_key_down_eq_id st hl]
      exact ⟨hne, hline, hcol⟩
  | left =>
    by_cases hc : 0 < st.cursorCol
    · rw [process_key_left_eq_of_pos st hc]
      exact ⟨hne, hline, by dsimp only; omega⟩
    · by_cases hl : 0 < st.cursorLine
      · rw [process_key_left_eq_wrap st hc hl]
        exact ⟨hne, by dsimp only; omega, Nat.le_refl _⟩
      · rw [process_key_left_eq_id st hc hl]
        exact ⟨hne, hline, hcol⟩
  | right =>
    by_cases hc : st.cursorCol < (st.lines.getD st.cursorLine []).length
    · rw [process_key_right_eq_of_lt st hc]
      exact ⟨hne, hline, by dsimp only; omega⟩
    · by_cases hl : st.cursorLine < st.lines.length - 1
      · rw [process_key_right_eq_wrap st hc hl]
        exact ⟨hne, by dsimp only; omega, Nat.zero_le _⟩
      · rw [process_key_right_eq_id st hc hl]
        exact ⟨hne, hline, hcol⟩
  | char c =>
    rw [process_key_char_eq st c]
    refine ⟨?_, ?_, ?_⟩ <;> dsimp only
    · exact ne_nil_of_length_pos (by rw [List.length_set]; omega)
    · rw [List.length_set]; exact hline
    · rw [getD_set_self [] _ _ _ hline, List.length_append, List.length_take,
        List.length_cons, List.length_drop]
      omega

/-- Witness for C8: the invariant holds for the concrete state
`(["hi", "there"], line 1, column 3)` and is preserved by a backspace. -/
theorem process_key_preserves_invariant_witness :
    buffer_invariant ⟨["hi".data, "there".data], 1, 3⟩
    ∧ buffer_invariant
        (process_key ⟨["hi".data, "there".data], 1, 3⟩ .backspace) :=
  ⟨by decide,
    process_key_preserves_invariant ⟨["hi".data, "there".data], 1, 3⟩
      .backspace (by decide)⟩

/-- C9: with the cursor on the first line at column 0, the backspace
transition is a no-op: lines, cursor line and cursor column are all
unchanged. -/
theorem backspace_at_origin_noop (st : TextBuffer) (h1 : st.cursorLine = 0)
    (h2 : st.cursorCol = 0) : process_key st .backspace = st :=
  process_key_backspace_eq_id st (by omega) (by omega)

/-- Witness for C9: backspace on the buffer `(["abc"], line 0, column 0)`
leaves it unchanged. -/
theorem backspace_at_origin_noop_witness :
    process_key ⟨["abc".data], 0, 0⟩ .backspace = ⟨["abc".data], 0, 0⟩ :=
  backspace_at_origin_noop ⟨["abc".data], 0, 0⟩ rfl rfl

/-- Pigeonhole on the 900 possible disambiguator values: 1000 draws of
`random.randint(100, 999)` always contain a repeat. -/
lemma randint_values_not_nodup (f : Nat → Nat) :
    ¬ ((List.range 1000).map (fun i => randint_100_999 (f i))).Nodup := by
  intro h
  have hsub : ((List.range 1000).map (fun i => randint_100_999 (f i))).toFinset
      ⊆ Finset.Icc 100 999 := by
    intro v hv
    rw [List.mem_toFinset] at hv
    obtain ⟨i, _, rfl⟩ := List.mem_map.mp hv
    have := Nat.mod_lt (f i) (show 0 < 900 by omega)
    rw [Finset.mem_Icc]
    unfold randint_100_999
    omega
  have hcard := Finset.card_le_card hsub
  rw [List.toFinset_card_of_nodup h, List.length_map, List.length_range,
    Nat.card_Icc] at hcard
  omega

/-- 1000 same-second filenames, for any sequence of random draws, contain a
duplicate: the filenames are an image of the 1000 disambiguator values. -/
lemma write_new_entry_filenames_not_nodup (now : String) (f : Nat → Nat) :
    ¬ ((List.range 1000).map (fun i => write_new_entry_filename now (f i))).Nodup := by
  intro h
  apply randint_values_not_nodup f
  have hmap : ((List.range 1000).map (fun i => write_new_entry_filename now (f i)))
      = ((List.range 1000).map (fun i => randint_100_999 (f i))).map
          (fun v => now ++ "_" ++ toString v ++ ".rz") := by
    rw [List.map_map]
    rfl
  rw [hmap] at h
  exact h.of_map _

/-- C5 counterexample: generating 1000 ids within the same wall-clock
second (here with the random draws 0,1,...,999, all legal outputs of
`random.randint(100,999)` under the model) produces a duplicate filename —
the claim's "never produces a duplicate" fails, and `write_new_entry`
performs no collision check at all. -/
theorem write_new_entry_filename_collision :
    ¬ ((List.range 1000).map
        (fun i => write_new_entry_filename "20251012_120000" i)).Nodup :=
  write_new_entry_filenames_not_nodup "20251012_120000" (fun i => i)

/-- C5 (amended): generating 1000 entry ids within the same wall-clock
second always produces a duplicate, whatever the random draws: the
disambiguator of `write_new_entry` has only 900 possible values and the
code neither re-rolls nor increments on collision (the colliding filename
is simply opened for writing, silently overwriting). -/
theorem write_new_entry_filename_always_collides (now : String) (f : Nat → Nat) :
    ¬ ((List.range 1000).map (fun i => write_new_entry_filename now (f i))).Nodup :=
  write_new_entry_filenames_not_nodup now f

lemma reencrypt_notes_length (ok nk : FernetKey) :
    ∀ (g : Nat → Nat) (l : List NoteFile),
      (reencrypt_notes ok nk g l).1.length = l.length
  | _, [] => rfl
  | g, note :: rest => by
    have ih := reencrypt_notes_length ok nk (fun n => g (n + 1)) rest
    cases hd : decrypt_data note.contents ok <;>
      simp [reencrypt_notes, hd, ih]

lemma reencrypt_notes_counts (ok nk : FernetKey) :
    ∀ (g : Nat → Nat) (l : List NoteFile),
      (reencrypt_notes ok nk g l).2.1
          = l.countP (fun n => (decrypt_data n.contents ok).isSome)
      ∧ (reencrypt_notes ok nk g l).2.2
          = l.countP (fun n => (decrypt_data n.contents ok).isNone)
  | _, [] => ⟨rfl, rfl⟩
  | g, note :: rest => by
    have ih := reencrypt_notes_counts ok nk (fun n => g (n + 1)) rest
    cases hd : decrypt_data note.contents ok <;>
      simp [reencrypt_notes, hd, ih.1, ih.2, List.countP_cons]

lemma reencrypt_notes_getD (ok nk : FernetKey) :
    ∀ (g : Nat → Nat) (l : List NoteFile) (i : Nat), i < l.length →
      (reencrypt_notes ok nk g l).1.getD i default_note
        = match decrypt_data (l.getD i default_note).contents ok with
          | none => l.getD i default_note
          | some content =>
            ⟨(l.getD i default_note).name, encrypt_data content nk (g i)⟩
  | _, [], i, h => absurd h (by simp)
  | g, note :: rest, 0, _ => by
    cases hd : decrypt_data note.contents ok <;>
      simp [reencrypt_notes, hd]
  | g, note :: rest, i + 1, h => by
    have ih := reencrypt_notes_getD ok nk (fun n => g (n + 1)) rest i
      (Nat.lt_of_succ_lt_succ (by simpa using h))
    cases hd : decrypt_data note.contents ok <;>
      simpa [reencrypt_notes, hd] using ih

/-- C2: for a vault of `N` entries all decryptable under the old key, a
rotation with zero storage errors re-encrypts every entry (each one
decrypts under the new key to its original plaintext), reports
`(successCount, failureCount) = (N, 0)` and completion, and returns the
new key as the session key. -/
theorem change_password_rotation_complete (old_key new_key : FernetKey)
    (nonces : Nat → Nat) (notes : List NoteFile) (i : Nat)
    (hall : ∀ n ∈ notes, (decrypt_data n.contents old_key).isSome)
    (hi : i < notes.length) :
    (change_password_reencrypt old_key new_key nonces notes).success_count
        = notes.length
    ∧ (change_password_reencrypt old_key new_key nonces notes).fail_count = 0
    ∧ (change_password_reencrypt old_key new_key nonces notes).password_changed
        = true
    ∧ (change_password_reencrypt old_key new_key nonces notes).session_key
        = new_key
    ∧ (change_password_reencrypt old_key new_key nonces notes).notes.length
        = notes.length
    ∧ decrypt_data
        ((change_password_reencrypt old_key new_key nonces notes).notes.getD i
          default_note).contents new_key
      = decrypt_data (notes.getD i default_note).contents old_key := by
  have hcounts := reencrypt_notes_counts old_key new_key nonces notes
  have hmem : notes.getD i default_note ∈ notes := by
    rw [List.getD_eq_getElem notes default_note hi]
    exact List.getElem_mem hi
  obtain ⟨content, hcontent⟩ := Option.isSome_iff_exists.mp (hall _ hmem)
  refine ⟨?_, ?_, rfl, rfl, reencrypt_notes_length old_key new_key nonces notes, ?_⟩
  · show (reencrypt_notes old_key new_key nonces notes).2.1 = notes.length
    rw [hcounts.1]
    exact List.countP_eq_length.mpr fun n hn => hall n hn
  · show (reencrypt_notes old_key new_key nonces notes).2.2 = 0
    rw [hcounts.2]
    refine List.countP_eq_zero.mpr fun n hn => ?_
    have := hall n hn
    simp only [Option.isNone_iff_eq_none]
    intro hnone
    rw [hnone] at this
    simp at this
  · show decrypt_data
        ((reencrypt_notes old_key new_key nonces notes).1.getD i
          default_note).contents new_key = _
    rw [reencrypt_notes_getD old_key new_key nonces notes i hi, hcontent]
    simp [decrypt_data, encrypt_data, hcontent]

/-- Witness for C2: a one-entry vault encrypted under the old key rotates
to counts `(1, 0)`, reports completion with the new key, and the entry
decrypts under the new key to its original plaintext. -/
theorem change_password_rotation_complete_witness :
    (change_password_reencrypt ⟨"old", 1⟩ ⟨"new", 2⟩ (fun n => n)
        [⟨"a.rz", encrypt_data "hi".data ⟨"old", 1⟩ 7⟩]).success_count = 1
    ∧ (change_password_reencrypt ⟨"old", 1⟩ ⟨"new", 2⟩ (fun n => n)
        [⟨"a.rz", encrypt_data "hi".data ⟨"old", 1⟩ 7⟩]).fail_count = 0
    ∧ (change_password_reencrypt ⟨"old", 1⟩ ⟨"new", 2⟩ (fun n => n)
        [⟨"a.rz", encrypt_data "hi".data ⟨"old", 1⟩ 7⟩]).password_changed = true
    ∧ (change_password_reencrypt ⟨"old", 1⟩ ⟨"new", 2⟩ (fun n => n)
        [⟨"a.rz", encrypt_data "hi".data ⟨"old", 1⟩ 7⟩]).session_key = ⟨"new", 2⟩
    ∧ (change_password_reencrypt ⟨"old", 1⟩ ⟨"new", 2⟩ (fun n => n)
        [⟨"a.rz", encrypt_data "hi".data ⟨"old", 1⟩ 7⟩]).notes.length = 1
    ∧ decrypt_data
        ((change_password_reencrypt ⟨"old", 1⟩ ⟨"new", 2⟩ (fun n => n)
          [⟨"a.rz", encrypt_data "hi".data ⟨"old", 1⟩ 7⟩]).notes.getD 0
            default_note).contents ⟨"new", 2⟩
      = decrypt_data
          ([⟨"a.rz", encrypt_data "hi".data ⟨"old", 1⟩ 7⟩].getD 0
            default_note).contents ⟨"old", 1⟩ :=
  change_password_rotation_complete ⟨"old", 1⟩ ⟨"new", 2⟩ (fun n => n)
    [⟨"a.rz", encrypt_data "hi".data ⟨"old", 1⟩ 7⟩] 0 (by decide) (by decide)

/-- C3: if entry `i` fails to decrypt under the old key during rotation,
the rotation does not abort: the failure count is at least 1, entry `i` is
left byte-for-byte unchanged, and every other decryptable entry is still
re-encrypted so that it decrypts under the new key to its original
plaintext. -/
theorem change_password_rotation_partial_failure (old_key new_key : FernetKey)
    (nonces : Nat → Nat) (notes : List NoteFile) (i j : Nat)
    (hi : i < notes.length)
    (hfail : decrypt_data (notes.getD i default_note).contents old_key = none)
    (hj : j < notes.length) (_hij : j ≠ i)
    (hok : (decrypt_data (notes.getD j default_note).contents old_key).isSome) :
    1 ≤ (change_password_reencrypt old_key new_key nonces notes).fail_count
    ∧ (change_password_reencrypt old_key new_key nonces notes).notes.getD i
        default_note
      = notes.getD i default_note
    ∧ decrypt_data
        ((change_password_reencrypt old_key new_key nonces notes).notes.getD j
          default_note).contents new_key
      = decrypt_data (notes.getD j default_note).contents old_key := by
  have hcounts := reencrypt_notes_counts old_key new_key nonces notes
  have hmem : notes.getD i default_note ∈ notes := by
    rw [List.getD_eq_getElem notes default_note hi]
    exact List.getElem_mem hi
  obtain ⟨content, hcontent⟩ := Option.isSome_iff_exists.mp hok
  refine ⟨?_, ?_, ?_⟩
  · show 1 ≤ (reencrypt_notes old_key new_key nonces notes).2.2
    rw [hcounts.2]
    have hpos : 0 < notes.countP
        (fun n => (decrypt_data n.contents old_key).isNone) := by
      rw [List.countP_pos_iff]
      exact ⟨notes.getD i default_note, hmem, by rw [Option.isNone_iff_eq_none]; exact hfail⟩
    omega
  · show (reencrypt_notes old_key new_key nonces notes).1.getD i default_note = _
    rw [reencrypt_notes_getD old_key new_key nonces notes i hi, hfail]
  · show decrypt_data
        ((reencrypt_notes old_key new_key nonces notes).1.getD j
          default_note).contents new_key = _
    rw [reencrypt_notes_getD old_key new_key nonces notes j hj, hcontent]
    simp [decrypt_data, encrypt_data, hcontent]

/-- Witness for C3: in a two-entry vault where entry 0 is sealed under a
different key and entry 1 under the old key, rotation counts at least one
failure, leaves entry 0 untouched and re-encrypts entry 1 so it opens
under the new key to its original plaintext. -/
theorem change_password_rotation_partial_failure_witness :
    1 ≤ (change_password_reencrypt ⟨"old", 1⟩ ⟨"new", 2⟩ (fun n => n)
        [⟨"bad.rz", encrypt_data "x".data ⟨"other", 9⟩ 0⟩,
          ⟨"good.rz", encrypt_data "y".data ⟨"old", 1⟩ 0⟩]).fail_count
    ∧ (change_password_reencrypt ⟨"old", 1⟩ ⟨"new", 2⟩ (fun n => n)
        [⟨"bad.rz", encrypt_data "x".data ⟨"other", 9⟩ 0⟩,
          ⟨"good.rz", encrypt_data "y".data ⟨"old", 1⟩ 0⟩]).notes.getD 0
          default_note
      = [⟨"bad.rz", encrypt_data "x".data ⟨"other", 9⟩ 0⟩,
          ⟨"good.rz", encrypt_data "y".data ⟨"old", 1⟩ 0⟩].getD 0 default_note
    ∧ decrypt_data
        ((change_password_reencrypt ⟨"old", 1⟩ ⟨"new", 2⟩ (fun n => n)
          [⟨"bad.rz", encrypt_data "x".data ⟨"other", 9⟩ 0⟩,
            ⟨"good.rz", encrypt_data "y".data ⟨"old", 1⟩ 0⟩]).notes.getD 1
              default_note).contents ⟨"new", 2⟩
      = decrypt_data
          ([⟨"bad.rz", encrypt_data "x".data ⟨"other", 9⟩ 0⟩,
            ⟨"good.rz", encrypt_data "y".data ⟨"old", 1⟩ 0⟩].getD 1
              default_note).contents ⟨"old", 1⟩ :=
  change_password_rotation_partial_failure ⟨"old", 1⟩ ⟨"new", 2⟩ (fun n => n)
    [⟨"bad.rz", encrypt_data "x".data ⟨"other", 9⟩ 0⟩,
      ⟨"good.rz", encrypt_data "y".data ⟨"old", 1⟩ 0⟩] 0 1
    (by decide) (by decide) (by decide) (by decide) (by decide)
